import Mathlib

/-!
Verification development for the Stemmer repository: a .NET (C++/CLI) wrapper
`Stemmer::StemWord` (src/Stemmer/Stemmer.cpp) around the classic Porter
stemming engine (declared `extern "C"` as `create_stemmer` / `stem` /
`free_stemmer`; the engine's own source is not part of the repository's
sources, so it is modelled from the specification's step-by-step description,
§4 of the spec).

The embedding has two layers:
* `PorterStemmer.porterStem` — the Porter algorithm over `List Char`,
  modelled from the spec (character classifiers, measure, steps 1a–5b).
* `PorterStemmer.stemWordRun` — the wrapper `Stemmer::StemWord`, modelled
  line by line from src/Stemmer/Stemmer.cpp over an explicit native-heap
  state (marshalled buffer, stemmer context, allocation/free bookkeeping).
-/

namespace PorterStemmer

/-- True on the five plain vowel letters a, e, i, o, u. -/
def isVowelChar (c : Char) : Bool :=
  c == 'a' || c == 'e' || c == 'i' || c == 'o' || c == 'u'

/-- Modelled from the spec: `isConsonant(buffer, index)` — true if the
character at `index` is not a vowel, with the special case that `y` is a
consonant unless the immediately preceding character is itself a vowel,
and `y` at index 0 is a consonant (spec §4.1). Out-of-range reads return
a placeholder consonant; the algorithm only queries in-range indices. -/
def isConsonant (b : List Char) : Nat → Bool
  | 0 =>
      let c := b.getD 0 ' '
      if c == 'y' then true else !isVowelChar c
  | i + 1 =>
      let c := b.getD (i + 1) ' '
      if c == 'y' then isConsonant b i else !isVowelChar c

/-- Modelled from the spec: `measure(buffer, bound)` — the number of
vowel-run-to-consonant-run transitions (VC groups) in the word, i.e. the
`m` of the pattern `[C](VC){m}[V]` (spec §4.1). Stated over the whole
list; callers pass the prefix they want measured. -/
def measure (w : List Char) : Nat :=
  (List.range w.length).countP fun i =>
    decide (1 ≤ i) && isConsonant w i && !isConsonant w (i - 1)

/-- The word contains at least one vowel under the `isConsonant`
classification (the `vowelinstem` check of the classic engine). -/
def containsVowel (w : List Char) : Bool :=
  (List.range w.length).any fun i => !isConsonant w i

/-- True when `s` is a (character-for-character) suffix of `w`. -/
def hasSuffix (w s : List Char) : Bool := s.isSuffixOf w

/-- Remove the last `n` characters of `w`. -/
def chop (w : List Char) (n : Nat) : List Char := w.take (w.length - n)

/-- Replace the suffix `s` of `w` (assumed to match) with `r`. -/
def replaceSuffix (w s r : List Char) : List Char := chop w s.length ++ r

/-- Modelled from the spec: `doubleConsonant` — the word ends in two
identical consonants (spec §4.1). -/
def endsDoubleC (w : List Char) : Bool :=
  decide (2 ≤ w.length) &&
    w.getD (w.length - 1) ' ' == w.getD (w.length - 2) ' ' &&
    isConsonant w (w.length - 1)

/-- Modelled from the spec: `cvcRule` — the word's last three characters
follow the consonant-vowel-consonant pattern and the final consonant is
not one of w, x, y (spec §4.1). -/
def endsCVC (w : List Char) : Bool :=
  decide (3 ≤ w.length) &&
    isConsonant w (w.length - 3) && !isConsonant w (w.length - 2) &&
    isConsonant w (w.length - 1) &&
    !(w.getD (w.length - 1) ' ' == 'w' || w.getD (w.length - 1) ' ' == 'x' ||
      w.getD (w.length - 1) ' ' == 'y')

/-- Modelled from the spec: Step 1a — plural suffixes, first matching rule
wins: "sses"→"ss", "ies"→"i", "ss"→"ss" (no-op), bare "s"→"" (spec §4.2). -/
def step1a (w : List Char) : List Char :=
  if hasSuffix w ['s', 's', 'e', 's'] then chop w 2
  else if hasSuffix w ['i', 'e', 's'] then replaceSuffix w ['i', 'e', 's'] ['i']
  else if hasSuffix w ['s', 's'] then w
  else if hasSuffix w ['s'] then chop w 1
  else w

/-- Modelled from the spec: Step 1b1 cleanup, run only when 1b stripped
"ed"/"ing": append "e" after "at"/"bl"/"iz"; else drop one letter of a
doubled final consonant other than l, s, z; else append "e" when the
measure is 1 and the stem ends in the CVC pattern (spec §4.2). -/
def step1b1 (w : List Char) : List Char :=
  if hasSuffix w ['a', 't'] || hasSuffix w ['b', 'l'] || hasSuffix w ['i', 'z'] then
    w ++ ['e']
  else if endsDoubleC w &&
      !(w.getD (w.length - 1) ' ' == 'l' || w.getD (w.length - 1) ' ' == 's' ||
        w.getD (w.length - 1) ' ' == 'z') then
    chop w 1
  else if measure w == 1 && endsCVC w then w ++ ['e']
  else w

/-- Modelled from the spec: Step 1b — "eed"→"ee" gated on measure > 0;
"ed"/"ing" removed when the remaining stem contains a vowel, followed by
the 1b1 cleanup; first matching suffix wins, no fallthrough (spec §4.2). -/
def step1b (w : List Char) : List Char :=
  if hasSuffix w ['e', 'e', 'd'] then
    if 0 < measure (chop w 3) then chop w 1 else w
  else if hasSuffix w ['e', 'd'] then
    if containsVowel (chop w 2) then step1b1 (chop w 2) else w
  else if hasSuffix w ['i', 'n', 'g'] then
    if containsVowel (chop w 3) then step1b1 (chop w 3) else w
  else w

/-- Modelled from the spec: Step 1c — final "y" becomes "i" when the stem
before it contains a vowel (spec §4.2). -/
def step1c (w : List Char) : List Char :=
  if hasSuffix w ['y'] && containsVowel (chop w 1) then chop w 1 ++ ['i'] else w

/-- Modelled from the spec: the Step 2 double-suffix mapping table, in the
classic engine's priority order, longest-first where one suffix ends in
another (spec §4.3: "ational"→"ate", "tional"→"tion", "enci"→"ence",
"anci"→"ance", "izer"→"ize", "logi"→"log", …). -/
def step2Table : List (List Char × List Char) :=
  [ (['a', 't', 'i', 'o', 'n', 'a', 'l'], ['a', 't', 'e']),
    (['t', 'i', 'o', 'n', 'a', 'l'], ['t', 'i', 'o', 'n']),
    (['e', 'n', 'c', 'i'], ['e', 'n', 'c', 'e']),
    (['a', 'n', 'c', 'i'], ['a', 'n', 'c', 'e']),
    (['i', 'z', 'e', 'r'], ['i', 'z', 'e']),
    (['b', 'l', 'i'], ['b', 'l', 'e']),
    (['a', 'l', 'l', 'i'], ['a', 'l']),
    (['e', 'n', 't', 'l', 'i'], ['e', 'n', 't']),
    (['e', 'l', 'i'], ['e']),
    (['o', 'u', 's', 'l', 'i'], ['o', 'u', 's']),
    (['i', 'z', 'a', 't', 'i', 'o', 'n'], ['i', 'z', 'e']),
    (['a', 't', 'i', 'o', 'n'], ['a', 't', 'e']),
    (['a', 't', 'o', 'r'], ['a', 't', 'e']),
    (['a', 'l', 'i', 's', 'm'], ['a', 'l']),
    (['i', 'v', 'e', 'n', 'e', 's', 's'], ['i', 'v', 'e']),
    (['f', 'u', 'l', 'n', 'e', 's', 's'], ['f', 'u', 'l']),
    (['o', 'u', 's', 'n', 'e', 's', 's'], ['o', 'u', 's']),
    (['a', 'l', 'i', 't', 'i'], ['a', 'l']),
    (['i', 'v', 'i', 't', 'i'], ['i', 'v', 'e']),
    (['b', 'i', 'l', 'i', 't', 'i'], ['b', 'l', 'e']),
    (['l', 'o', 'g', 'i'], ['l', 'o', 'g']) ]

/-- Modelled from the spec: the Step 3 suffix table — "icate"→"ic",
"ative"→"", "alize"→"al", "iciti"→"ic", "ical"→"ic", "ful"→"",
"ness"→"" (spec §4.4). -/
def step3Table : List (List Char × List Char) :=
  [ (['i', 'c', 'a', 't', 'e'], ['i', 'c']),
    (['a', 't', 'i', 'v', 'e'], []),
    (['a', 'l', 'i', 'z', 'e'], ['a', 'l']),
    (['i', 'c', 'i', 't', 'i'], ['i', 'c']),
    (['i', 'c', 'a', 'l'], ['i', 'c']),
    (['f', 'u', 'l'], []),
    (['n', 'e', 's', 's'], []) ]

/-- Apply a suffix mapping table: the first entry whose suffix matches the
tail fires, and only when the measure of the stem before the suffix is
positive; otherwise the step is a no-op (spec §4.3–4.4). -/
def applyTable (t : List (List Char × List Char)) (w : List Char) : List Char :=
  match t.find? (fun p => hasSuffix w p.1) with
  | some p => if 0 < measure (chop w p.1.length) then replaceSuffix w p.1 p.2 else w
  | none => w

/-- Step 2 of the Porter algorithm (spec §4.3). -/
def step2 (w : List Char) : List Char := applyTable step2Table w

/-- Step 3 of the Porter algorithm (spec §4.4). -/
def step3 (w : List Char) : List Char := applyTable step3Table w

/-- Modelled from the spec: the Step 4 removal suffixes in priority order;
the boolean marks the "ion" entry, kept unless preceded by "s" or "t"
(spec §4.5). -/
def step4Suffixes : List (List Char × Bool) :=
  [ (['a', 'l'], false), (['a', 'n', 'c', 'e'], false),
    (['e', 'n', 'c', 'e'], false), (['e', 'r'], false), (['i', 'c'], false),
    (['a', 'b', 'l', 'e'], false), (['i', 'b', 'l', 'e'], false),
    (['a', 'n', 't'], false), (['e', 'm', 'e', 'n', 't'], false),
    (['m', 'e', 'n', 't'], false), (['e', 'n', 't'], false),
    (['i', 'o', 'n'], true), (['o', 'u'], false), (['i', 's', 'm'], false),
    (['a', 't', 'e'], false), (['i', 't', 'i'], false),
    (['o', 'u', 's'], false), (['i', 'v', 'e'], false),
    (['i', 'z', 'e'], false) ]

/-- The Step 4 gate on the stem left after removing the suffix: its
measure must exceed 1, and for the "ion" entry it must end in "s" or "t"
(spec §4.5). -/
def step4Gate (st : List Char) (needsST : Bool) : Bool :=
  decide (1 < measure st) &&
    (!needsST || st.getD (st.length - 1) ' ' == 's' ||
      st.getD (st.length - 1) ' ' == 't')

/-- Modelled from the spec: Step 4 — remove the first matching suffix when
the measure of the stem before it exceeds 1; the "ion" entry additionally
requires the stem to end in "s" or "t" (spec §4.5). -/
def step4 (w : List Char) : List Char :=
  match step4Suffixes.find? (fun p => hasSuffix w p.1) with
  | some p => if step4Gate (chop w p.1.length) p.2 then chop w p.1.length else w
  | none => w

/-- The Step 5a gate on the stem left after removing the final "e": its
measure exceeds 1, or equals 1 while the stem does not end in the CVC
pattern (spec §4.6). -/
def step5aGate (st : List Char) : Bool :=
  decide (1 < measure st) || (measure st == 1 && !endsCVC st)

/-- Modelled from the spec: Step 5a — a final "e" is removed when the
measure of the stem without it exceeds 1, or equals 1 and the stem does
not end in the CVC pattern (spec §4.6). -/
def step5a (w : List Char) : List Char :=
  if hasSuffix w ['e'] then
    if step5aGate (chop w 1) then chop w 1 else w
  else w

/-- Modelled from the spec: Step 5b — with measure above 1, a final
doubled "l" loses one "l" (spec §4.6). -/
def step5b (w : List Char) : List Char :=
  if decide (1 < measure w) && hasSuffix w ['l'] && endsDoubleC w then chop w 1
  else w

/-- Modelled from the spec: the full Porter stemming engine — the five
sequential rule stages Step1→Step2→Step3→Step4→Step5 (spec §2, §4). The
engine's C source (`stem`) is declared but not present in the repository's
sources, so this is the spec's description of it. -/
def porterStem (w : List Char) : List Char :=
  step5b (step5a (step4 (step3 (step2 (step1c (step1b (step1a w)))))))

/-- Exceptions the wrapper can surface to .NET callers: the implicit
`NullReferenceException` of dereferencing a null `String^`, and the
explicit argument-validation signal (`ArgumentNullException` family),
which the wrapper never raises. -/
inductive NetException
  | nullReference
  | invalidArgument
deriving DecidableEq

/-- The native-heap state threaded through a `StemWord` call: live
marshalled buffers, live stemmer contexts, buffer contents, and the next
fresh handle. -/
structure RunState where
  liveBufs : List Nat
  liveStemmers : List Nat
  mem : Nat → List Char
  next : Nat

/-- The empty native heap. -/
def initState : RunState := ⟨[], [], fun _ => [], 0⟩

/-- Model of `Stemmer::StemWord` (src/Stemmer/Stemmer.cpp lines 15–34), as
explicit state passing over the native heap.

* Line 17: `Marshal::StringToHGlobalAnsi(word)` copies the managed string
  into a freshly allocated native buffer; for a null string it returns the
  null pointer and allocates nothing.
* Line 18: `create_stemmer()` allocates the stemmer context.
* Line 22: `stem(z, ptr, word->Length)`; evaluating `word->Length` on a
  null reference throws `NullReferenceException`. The native engine
  (modelled from the spec, `porterStem`) mutates the marshalled copy in
  place and reports the stemmed length.
* Line 23: `word->Substring(0, newLen)` builds the result from the
  original managed string.
* Lines 29–33: the `finally` block frees the buffer and the stemmer
  context on every exit path, exceptional exits included. -/
def stemWordRun (word : Option String) (s : RunState) :
    Except NetException String × RunState :=
  match word with
  | none =>
      let z := s.next
      let s2 := { s with liveStemmers := z :: s.liveStemmers, next := s.next + 1 }
      let s4 := { s2 with liveStemmers := s2.liveStemmers.erase z }
      (Except.error NetException.nullReference, s4)
  | some w =>
      let p := s.next
      let s1 := { s with
        liveBufs := p :: s.liveBufs,
        mem := fun h => if h == p then w.data else s.mem h,
        next := s.next + 1 }
      let z := s1.next
      let s2 := { s1 with liveStemmers := z :: s1.liveStemmers, next := s1.next + 1 }
      let stemmed := porterStem w.data
      let s3 := { s2 with
        mem := fun h =>
          if h == p then stemmed ++ (s2.mem h).drop stemmed.length else s2.mem h }
      let s4 := { s3 with
        liveBufs := s3.liveBufs.erase p,
        liveStemmers := s3.liveStemmers.erase z }
      (Except.ok (String.mk (w.data.take stemmed.length)), s4)

/-- The value `StemWord` returns on a non-null word: the prefix of the
original managed string whose length is the stemmed length reported by
the engine (line 23 of src/Stemmer/Stemmer.cpp). -/
def stemWordStr (w : String) : String :=
  String.mk (w.data.take (porterStem w.data).length)

/-! ## Length bookkeeping: every stage is a length non-increase, except the
Step 1b1 cleanup, whose single "append e" only offsets the two or three
characters Step 1b just deleted. -/

theorem hasSuffix_length {w s : List Char} (h : hasSuffix w s = true) :
    s.length ≤ w.length :=
  (List.isSuffixOf_iff_suffix.mp h).length_le

theorem chop_length (w : List Char) (n : Nat) :
    (chop w n).length = w.length - n := by
  simp [chop]

theorem replaceSuffix_length {w s r : List Char} (h : hasSuffix w s = true)
    (hr : r.length ≤ s.length) : (replaceSuffix w s r).length ≤ w.length := by
  have hs := hasSuffix_length h
  simp only [replaceSuffix, List.length_append, chop_length]
  omega

theorem step1a_length (w : List Char) : (step1a w).length ≤ w.length := by
  unfold step1a
  split_ifs with h1 h2 h3 h4
  · rw [chop_length]; omega
  · exact replaceSuffix_length h2 (by decide)
  · exact le_refl _
  · rw [chop_length]; omega
  · exact le_refl _

theorem step1b1_length (w : List Char) : (step1b1 w).length ≤ w.length + 1 := by
  unfold step1b1
  split_ifs with h1 h2 h3
  · simp
  · rw [chop_length]; omega
  · simp
  · omega

theorem step1b_length (w : List Char) : (step1b w).length ≤ w.length := by
  unfold step1b
  split_ifs with h1 h2 h3 h4 h5 h6
  · rw [chop_length]; omega
  · exact le_refl _
  · have hw : 2 ≤ w.length := by simpa using hasSuffix_length h3
    have hb := step1b1_length (chop w 2)
    rw [chop_length] at hb
    omega
  · exact le_refl _
  · have hw : 3 ≤ w.length := by simpa using hasSuffix_length h5
    have hb := step1b1_length (chop w 3)
    rw [chop_length] at hb
    omega
  · exact le_refl _
  · exact le_refl _

theorem step1c_length (w : List Char) : (step1c w).length ≤ w.length := by
  unfold step1c
  split_ifs with h
  · simp only [Bool.and_eq_true] at h
    have hw : 1 ≤ w.length := by simpa using hasSuffix_length h.1
    simp only [List.length_append, chop_length, List.length_singleton]
    omega
  · exact le_refl _

theorem applyTable_length (t : List (List Char × List Char)) (w : List Char)
    (ht : ∀ p ∈ t, p.2.length ≤ p.1.length) :
    (applyTable t w).length ≤ w.length := by
  unfold applyTable
  cases hf : t.find? (fun p => hasSuffix w p.1) with
  | none => exact le_refl _
  | some p =>
      have hs' := List.find?_some hf
      have hs : hasSuffix w p.1 = true := hs'
      have hm := ht p (List.mem_of_find?_eq_some hf)
      show (if 0 < measure (chop w p.1.length) then replaceSuffix w p.1 p.2
        else w).length ≤ w.length
      split_ifs with hgate
      · exact replaceSuffix_length hs hm
      · exact le_refl _

theorem step2_length (w : List Char) : (step2 w).length ≤ w.length :=
  applyTable_length step2Table w (by decide)

theorem step3_length (w : List Char) : (step3 w).length ≤ w.length :=
  applyTable_length step3Table w (by decide)

theorem step4_length (w : List Char) : (step4 w).length ≤ w.length := by
  unfold step4
  cases hf : step4Suffixes.find? (fun p => hasSuffix w p.1) with
  | none => exact le_refl _
  | some p =>
      show (if step4Gate (chop w p.1.length) p.2 then chop w p.1.length
        else w).length ≤ w.length
      split_ifs with hgate
      · rw [chop_length]; omega
      · exact le_refl _

theorem step5a_length (w : List Char) : (step5a w).length ≤ w.length := by
  unfold step5a
  split_ifs with h1 h2
  · rw [chop_length]; omega
  · exact le_refl _
  · exact le_refl _

theorem step5b_length (w : List Char) : (step5b w).length ≤ w.length := by
  unfold step5b
  split_ifs with h
  · rw [chop_length]; omega
  · exact le_refl _

theorem porterStem_length (w : List Char) :
    (porterStem w).length ≤ w.length := by
  unfold porterStem
  have h1 := step1a_length w
  have h2 := step1b_length (step1a w)
  have h3 := step1c_length (step1b (step1a w))
  have h4 := step2_length (step1c (step1b (step1a w)))
  have h5 := step3_length (step2 (step1c (step1b (step1a w))))
  have h6 := step4_length (step3 (step2 (step1c (step1b (step1a w)))))
  have h7 := step5a_length (step4 (step3 (step2 (step1c (step1b (step1a w))))))
  have h8 := step5b_length (step5a (step4 (step3 (step2 (step1c (step1b (step1a w)))))))
  omega

/-! ## Wrapper bookkeeping helpers shared by the resource and frame
theorems. -/

theorem stemWordRun_liveBufs (word : Option String) (s : RunState) :
    ((stemWordRun word s).2).liveBufs = s.liveBufs := by
  cases word <;> simp [stemWordRun, List.erase_cons_head]

theorem stemWordRun_liveStemmers (word : Option String) (s : RunState) :
    ((stemWordRun word s).2).liveStemmers = s.liveStemmers := by
  cases word <;> simp [stemWordRun, List.erase_cons_head]

theorem mk_data (l : List Char) : (String.mk l).data = l := rfl

theorem mk_length (l : List Char) : (String.mk l).length = l.length := rfl

theorem length_eq_data_length (s : String) : s.length = s.data.length := rfl

/-! ## Sanity checks against the spec's reference vectors (§8). -/

theorem sanity_caresses : stemWordStr ("caresses") = ("caress") := rfl

theorem sanity_ponies : stemWordStr ("ponies") = ("poni") := rfl

theorem sanity_agreed : stemWordStr ("agreed") = ("agre") := rfl

theorem sanity_conflated : stemWordStr ("conflated") = ("conflat") := rfl

theorem sanity_troubleshooting :
    stemWordStr ("troubleshooting") = ("troubleshoot") := rfl

/-! ## The claims. -/

/-- Claim C1: for every input word, the result of `StemWord` is a
character-for-character prefix of the input word and its length is at most
the input's length; moreover the modelled Porter engine itself never
increases length (Step 1b1's "append e" only restores a character removed
by Step 1b in the same call). -/
theorem stemWord_prefix_reduction (w : String) :
    (stemWordStr w).data <+: w.data ∧ (stemWordStr w).length ≤ w.length ∧
    (porterStem w.data).length ≤ w.data.length := by
  unfold stemWordStr
  rw [mk_data, mk_length, length_eq_data_length, List.length_take]
  refine ⟨List.take_prefix ((porterStem w.data).length) w.data, ?_,
    porterStem_length w.data⟩
  omega

/-- Claim C2, counterexample: stemming "relational" does not return
"relate"; the spec's own rules continue past Step 2's intermediate
"relate" (Step 5a drops the final "e" because the measure of "relat"
is 2). -/
theorem stemWord_relational_counterexample :
    stemWordStr ("relational") ≠ ("relate") := by
  have h0 : stemWordStr ("relational") = ("relat") := rfl
  rw [h0]
  decide

/-- Claim C2 as amended: stemming "relational" returns exactly "relat",
both through the wrapper and in the modelled engine. -/
theorem stemWord_relational :
    stemWordStr ("relational") = ("relat") ∧
    porterStem (("relational").data) = ("relat").data := ⟨rfl, rfl⟩

/-- Claim C3: stemming the empty string returns the empty string, and the
wrapper call on the empty string succeeds with the empty string. -/
theorem stemWord_empty :
    stemWordStr ("") = ("") ∧
    (stemWordRun (some ("")) initState).1 = Except.ok ("") := ⟨rfl, rfl⟩

/-- Claim C4, counterexample: on null input the wrapper does not raise an
explicit invalid-argument signal. -/
theorem stemWord_null_counterexample :
    (stemWordRun none initState).1 ≠
      Except.error NetException.invalidArgument := by
  intro hEq
  have h1 : (stemWordRun none initState).1 =
      Except.error NetException.nullReference := rfl
  rw [h1] at hEq
  cases Except.error.inj hEq

/-- Claim C4 as amended: on null input `StemWord` fails fast — it returns
no stem, throwing the `NullReferenceException` raised when the null
word's `Length` is evaluated (line 22); the code contains no explicit
invalid-argument check. -/
theorem stemWord_null_raises (s : RunState) :
    (stemWordRun none s).1 = Except.error NetException.nullReference := rfl

/-- Claim C5: stemming "feed" returns "feed" unchanged, because the
measure gate on the "eed" rule blocks stemming — the measure of the
remaining stem "f" is 0. -/
theorem stemWord_feed :
    measure ['f'] = 0 ∧ stemWordStr ("feed") = ("feed") := ⟨rfl, rfl⟩

/-- Claim C6: `StemWord` is deterministic — its output does not depend on
the state a call starts from, so any two calls on the same word, in any
order, yield identical output; in particular a repeated sequential call
returns the same result. -/
theorem stemWord_deterministic (w : Option String) (s₁ s₂ : RunState) :
    (stemWordRun w s₁).1 = (stemWordRun w s₂).1 ∧
    (stemWordRun w (stemWordRun w s₁).2).1 = (stemWordRun w s₁).1 := by
  cases w <;> exact ⟨rfl, rfl⟩

/-- Claim C7: stemming is not idempotent — there is a word whose stem
stems further ("supersede" stems to "supersed", which stems to
"supers"). -/
theorem stemWord_not_idempotent :
    ∃ w : String, stemWordStr (stemWordStr w) ≠ stemWordStr w := by
  refine ⟨("supersede"), ?_⟩
  have h1 : stemWordStr ("supersede") = ("supersed") := rfl
  have h2 : stemWordStr ("supersed") = ("supers") := rfl
  rw [h1, h2]
  decide

/-- Claim C8: over lowercase ASCII words the wrapper is total — from any
state, `StemWord` on a present word returns a result and never surfaces an
error. -/
theorem stemWord_total (w : String) (s : RunState)
    (_h : ∀ c ∈ w.data, ('a') ≤ c ∧ c ≤ ('z')) :
    ∃ r, (stemWordRun (some w) s).1 = Except.ok r :=
  ⟨String.mk (w.data.take (porterStem w.data).length), rfl⟩

/-- Claim C8, witness: the totality theorem applied to the concrete
lowercase word "feed". -/
theorem stemWord_total_witness :
    (∀ c ∈ (("feed")).data, ('a') ≤ c ∧ c ≤ ('z')) ∧
    ∃ r, (stemWordRun (some ("feed")) initState).1 = Except.ok r :=
  ⟨by decide, stemWord_total ("feed") initState (by decide)⟩

/-- Claim C9: every invocation of `StemWord` restores the native heap it
started from — the marshalled buffer and the stemmer context it acquires
are both released on every exit path, the exceptional null-input exit
included. -/
theorem stemWord_releases (word : Option String) (s : RunState) :
    ((stemWordRun word s).2).liveBufs = s.liveBufs ∧
    ((stemWordRun word s).2).liveStemmers = s.liveStemmers :=
  ⟨stemWordRun_liveBufs word s, stemWordRun_liveStemmers word s⟩

/-- Claim C10: `StemWord` never modifies the caller's input — all native
mutation lands on the freshly marshalled copy, so every pre-existing
buffer's contents are unchanged, the copy itself is freed before return,
and the result is the prefix of the original (unmodified) managed
string. -/
theorem stemWord_input_unchanged (w : String) (s : RunState)
    (hfresh : ∀ h ∈ s.liveBufs, h < s.next) :
    (∀ h ∈ s.liveBufs, ((stemWordRun (some w) s).2).mem h = s.mem h) ∧
    ((stemWordRun (some w) s).2).liveBufs = s.liveBufs ∧
    (stemWordRun (some w) s).1 =
      Except.ok (String.mk (w.data.take (porterStem w.data).length)) := by
  refine ⟨?_, stemWordRun_liveBufs (some w) s, rfl⟩
  intro h hh
  have hne : h ≠ s.next := Nat.ne_of_lt (hfresh h hh)
  simp [stemWordRun, hne]

/-- Claim C10, witness: the frame theorem applied to the concrete word
"feed" from the empty native heap. -/
theorem stemWord_input_unchanged_witness :
    (∀ h ∈ initState.liveBufs, h < initState.next) ∧
    ((∀ h ∈ initState.liveBufs,
        ((stemWordRun (some ("feed")) initState).2).mem h = initState.mem h) ∧
      ((stemWordRun (some ("feed")) initState).2).liveBufs =
        initState.liveBufs ∧
      (stemWordRun (some ("feed")) initState).1 =
        Except.ok (String.mk ((("feed")).data.take
          (porterStem (("feed")).data).length))) :=
  ⟨by decide, stemWord_input_unchanged ("feed") initState (by decide)⟩

end PorterStemmer
